import Mathlib

/-!
Verification of the GFW (Global Forest Watch) integration client.

Shallow embedding of the retrieval engine of the repository:
confidence-filter construction, alert normalization, retry/give-up
behaviour of the alert query path, the batch and optimized batch query,
the token manager, the date-range optimizer, and the geometry
partitioner.  Datetimes are embedded as integer UTC timestamps in
seconds; geographic coordinates and confidence scores as rationals.
Network effects (the HTTP attempt inside a call) are embedded as
explicit function parameters returning an Except value, and where a
claim is about the number of upstream calls the functions thread an
explicit call counter.
-/

/-! ### Association-list model of a Python dict

A dict is modelled as an association list ordered by first insertion.
Inserting an existing key overwrites its value in place; inserting a new
key appends it at the end.  This matches the insertion-ordered semantics
of a Python dict built by item assignment. -/

def dictInsert {β : Type} (d : List (String × β)) (k : String) (v : β) :
    List (String × β) :=
  match d with
  | [] => [(k, v)]
  | (k0, v0) :: rest =>
    if k0 = k then (k0, v) :: rest else (k0, v0) :: dictInsert rest k v

def dictLookup {β : Type} (d : List (String × β)) (k : String) : Option β :=
  match d with
  | [] => none
  | (k0, v0) :: rest => if k0 = k then some v0 else dictLookup rest k

def dictKeys {β : Type} (d : List (String × β)) : List String :=
  d.map Prod.fst

/-- Value of the last pair of the list carrying the given key, if any.
Used to describe the result of building a dict from a list of pairs. -/
def lastVal {β : Type} (ps : List (String × β)) (k : String) : Option β :=
  match ps with
  | [] => none
  | (k0, v0) :: rest =>
    match lastVal rest k with
    | some w => some w
    | none => if k0 = k then some v0 else none

/-- Build a dict from a list of key/value pairs in order, as the loop in
DataAPI.get_gfw_integrated_alerts_batch does with alerts_by_geostore. -/
def dictOfPairs {β : Type} (ps : List (String × β)) : List (String × β) :=
  ps.foldl (fun d p => dictInsert d p.1 p.2) []

/-! ### Python list.index -/

/-- Index of the first occurrence of x, or none where Python list.index
raises ValueError. -/
def idxOf (l : List String) (x : String) : Option Nat :=
  match l with
  | [] => none
  | a :: rest => if a = x then some 0 else (idxOf rest x).map (fun n => n + 1)

/-! ### Confidence enumerations and filter strings
(src/app/actions/gfwclient.py lines 283..294, 569..576, 733..741) -/

def IntegratedAlertsConfidenceEnumOrder : List String :=
  ["high", "highest"]

def NasaViirsFireAlertConfidenceEnumOrder : List String :=
  ["low", "nominal", "high"]

/-- ASCII lower-casing of one character, as Python str.lower does on the
enumeration values involved here. -/
def charLower (c : Char) : Char :=
  if 65 ≤ c.toNat ∧ c.toNat ≤ 90 then Char.ofNat (c.toNat + 32) else c

/-- Python str(value).lower()[:1] : the lower-cased first character (as a
string; empty input gives the empty string). -/
def lowerFirstLetter (s : String) : String :=
  match s.data.map charLower with
  | [] => ""
  | c :: _ => String.mk [c]

/-- The extra_where confidence filter built by
DataAPI.get_gfw_integrated_alerts (gfwclient.py lines 569..576): on a
threshold present in IntegratedAlertsConfidenceEnumOrder, the OR-join of
equality clauses for the levels from the threshold index on; on a
threshold not in the list (Python ValueError from list.index), the empty
string, with a warning logged. -/
def integrated_extra_where (lowest_confidence : String) : String :=
  match idxOf IntegratedAlertsConfidenceEnumOrder lowest_confidence with
  | some index =>
    let confidence_values := IntegratedAlertsConfidenceEnumOrder.drop index
    let joined := String.intercalate " OR "
      (confidence_values.map
        (fun c => "gfw_integrated_alerts__confidence = \x27" ++ c ++ "\x27"))
    "(" ++ joined ++ ")"
  | none => ""

/-- The extra_where confidence filter built by
DataAPI.get_nasa_viirs_fire_alerts (gfwclient.py lines 733..741): same
structure, but each selected level is abbreviated to its lower-cased
first letter before being put in its equality clause. -/
def viirs_extra_where (lowest_confidence : String) : String :=
  match idxOf NasaViirsFireAlertConfidenceEnumOrder lowest_confidence with
  | some index =>
    let confidence_values :=
      (NasaViirsFireAlertConfidenceEnumOrder.drop index).map lowerFirstLetter
    let joined := String.intercalate " OR "
      (confidence_values.map (fun v => "confidence__cat = \x27" ++ v ++ "\x27"))
    "(" ++ joined ++ ")"
  | none => ""

/-! ### The alert normalizer (gfwclient.py lines 155..177) -/

/-- The compute_confidence root validator of IntegratedAlert: the binary
confidence score derived from the confidence label. -/
def compute_confidence (confidence_label : String) : ℚ :=
  if confidence_label = "high" ∨ confidence_label = "highest" then 1 else 0

structure IntegratedAlert where
  latitude : ℚ
  longitude : ℚ
  confidence_label : String
  confidence : ℚ
  recorded_at : Int
  intensity : ℚ
deriving DecidableEq

/-- IntegratedAlert.parse_obj on an accepted raw record: the parsed
fields together with the derived binary confidence score. -/
def IntegratedAlert.parse (latitude longitude : ℚ) (confidence_label : String)
    (recorded_at : Int) (intensity : ℚ) : IntegratedAlert :=
  { latitude := latitude
    longitude := longitude
    confidence_label := confidence_label
    confidence := compute_confidence confidence_label
    recorded_at := recorded_at
    intensity := intensity }

/-! ### Retry with silent give-up (gfwclient.py lines 296..314, 506..562)

DataAPI.get_alerts is wrapped in backoff.on_exception(custom_backoff, ...,
max_tries=3, on_giveup=giveup_handler, raise_on_giveup=False): the inner
HTTP attempt is retried up to 3 times; when every try fails the giveup
handler logs the structured signal and, because raise_on_giveup is False,
the wrapped call returns None instead of raising.  The HTTP attempt is
embedded as a function from the attempt index to its outcome. -/

def retryAttempts {α : Type} (attempt : Nat → Except String α) :
    Nat → Nat → Option α
  | _, 0 => none
  | i, tries + 1 =>
    match attempt i with
    | Except.ok a => some a
    | Except.error _ => retryAttempts attempt (i + 1) tries

/-- DataAPI.get_alerts under its backoff decorator: up to 3 tries of the
HTTP attempt; the first success is returned; on give-up the result is
none (Python None), never an exception. -/
def get_alerts {α : Type} (attempt : Nat → Except String (List α)) :
    Option (List α) :=
  retryAttempts attempt 0 3

/-- DataAPI.get_gfw_integrated_alerts, alert-list part (gfwclient.py lines
578..589): runs get_alerts and parses each raw record; a falsy result
(None from give-up, or an empty list) yields the empty list.  The raw
record parser is passed in as parseAlert. -/
def get_gfw_integrated_alerts {α β : Type} (parseAlert : α → β)
    (attempt : Nat → Except String (List α)) : List β :=
  match get_alerts attempt with
  | none => []
  | some alerts => if alerts.isEmpty then [] else alerts.map parseAlert

/-! ### Batch query (gfwclient.py lines 591..649)

The per-geostore fetch (one DataAPI.get_gfw_integrated_alerts call, which
can still raise, e.g. an authentication failure surfacing through it) is
embedded as a function from the geostore id to an Except outcome. -/

/-- fetch_single_geostore inside get_gfw_integrated_alerts_batch: a
failing fetch is caught and logged, contributing the pair (geostore_id,
[]) instead of an exception. -/
def fetch_single_geostore {β : Type} (fetch : String → Except String (List β))
    (geostore_id : String) : String × List β :=
  match fetch geostore_id with
  | Except.ok alerts => (geostore_id, alerts)
  | Except.error _ => (geostore_id, [])

/-- DataAPI.get_gfw_integrated_alerts_batch: empty input returns the
empty dict; otherwise every geostore id is fetched (each through
fetch_single_geostore, so no task ever carries an exception) and the
results are collected into a dict keyed by geostore id. -/
def get_gfw_integrated_alerts_batch {β : Type}
    (fetch : String → Except String (List β)) (geostore_ids : List String) :
    List (String × List β) :=
  if geostore_ids.isEmpty then []
  else dictOfPairs (geostore_ids.map (fetch_single_geostore fetch))

/-- Merge step of DataAPI.get_gfw_integrated_alerts_optimized (lines
716..720): per-geostore alert lists of a chunk are appended to the
accumulated dict, inserting a fresh key at the end on first sight. -/
def merge_alerts {β : Type} (all_alerts chunk : List (String × List β)) :
    List (String × List β) :=
  chunk.foldl
    (fun d p =>
      match dictLookup d p.1 with
      | some v => dictInsert d p.1 (v ++ p.2)
      | none => d ++ [(p.1, p.2)])
    all_alerts

/-! ### Call-counted variants (for the no-upstream-call claims)

The same two entry points with every upstream interaction threaded
through an explicit call counter: the per-geostore fetch and the dataset
metadata retrieval receive the current counter and return the updated
one, so a counter left untouched proves that no upstream call (and hence
no authentication, metadata fetch or alert query) was made. -/

/-- Call-counted DataAPI.get_gfw_integrated_alerts_batch. -/
def get_gfw_integrated_alerts_batch_counted {β : Type}
    (fetch : String → Nat → Except String (List β) × Nat)
    (geostore_ids : List String) (calls : Nat) :
    List (String × List β) × Nat :=
  if geostore_ids.isEmpty then ([], calls)
  else
    let gathered := geostore_ids.foldl
      (fun (acc : List (String × List β) × Nat) g =>
        let step := fetch g acc.2
        let pair :=
          match step.1 with
          | Except.ok alerts => (g, alerts)
          | Except.error _ => (g, [])
        (acc.1 ++ [pair], step.2))
      ([], calls)
    (dictOfPairs gathered.1, gathered.2)

/-! ### Dataset metadata and the date-range optimizer
(gfwclient.py lines 58..68, 758..858) -/

/-- DatasetResponseItem, the shape get_dataset_metadata parses.  Note it
has no update_frequency field, so getattr(metadata, "update_frequency",
"Daily") in optimize_date_range_for_dataset always takes the default. -/
structure DatasetResponseItemM where
  dataset : String
  version : String
  updated_on : Int
deriving DecidableEq

/-- Python substring membership (the in operator) on character lists. -/
def containsSub (hay pat : List Char) : Bool :=
  match hay with
  | [] => pat.isEmpty
  | _ :: rest => (List.isPrefixOf pat hay || containsSub rest pat)

def strLower (s : String) : String :=
  String.mk (s.data.map charLower)

def strContainsSub (s pat : String) : Bool :=
  containsSub s.data pat.data

/-- DataAPI._calculate_chunk_size (gfwclient.py lines 835..846). -/
def calculate_chunk_size (update_frequency : String) (max_days : Int) : Int :=
  let frequency_lower := strLower update_frequency
  if strContainsSub frequency_lower "daily" then min 7 max_days
  else if strContainsSub frequency_lower "weekly" then min 14 max_days
  else if strContainsSub frequency_lower "monthly" then min 30 max_days
  else min 7 max_days

def secondsPerDay : Int := 86400

/-- The chunk-walking while loop shared by optimize_date_range_for_dataset
and _simple_date_chunking: from current_start, windows of
timedelta(days=chunk) clipped to requested_end, until requested_end is
reached.  The loop is embedded with explicit fuel; the fuel below is an
upper bound on the iteration count whenever the step is positive, which
is exactly when the Python loop terminates. -/
def date_chunking_loop (chunk_seconds : Int) :
    Nat → Int → Int → List (Int × Int)
  | 0, _, _ => []
  | fuel + 1, current_start, requested_end =>
    if current_start < requested_end then
      let current_end := min (current_start + chunk_seconds) requested_end
      (current_start, current_end) ::
        date_chunking_loop chunk_seconds fuel current_end requested_end
    else []

def date_chunking (chunk_days : Int) (requested_start requested_end : Int) :
    List (Int × Int) :=
  date_chunking_loop (secondsPerDay * chunk_days)
    ((requested_end - requested_start).toNat + 1) requested_start requested_end

/-- DataAPI._simple_date_chunking (gfwclient.py lines 848..858). -/
def simple_date_chunking (start fin max_days : Int) : List (Int × Int) :=
  date_chunking max_days start fin

/-- DataAPI.optimize_date_range_for_dataset (gfwclient.py lines 792..833).
The get_dataset_metadata outcome is passed in as an Except value; any
failure retrieving metadata takes the fallback _simple_date_chunking
branch of the except handler.  In the success branch the chunk size is
computed from getattr(metadata, "update_frequency", "Daily"), which is
always the default "Daily" because DatasetResponseItem has no
update_frequency field. -/
def optimize_date_range_for_dataset
    (metadata : Except String DatasetResponseItemM)
    (requested_start requested_end max_days_per_query : Int) :
    List (Int × Int) :=
  match metadata with
  | Except.ok _ =>
    let update_frequency := "Daily"
    let chunk_size := calculate_chunk_size update_frequency max_days_per_query
    date_chunking chunk_size requested_start requested_end
  | Except.error _ =>
    simple_date_chunking requested_start requested_end max_days_per_query

/-- Call-counted DataAPI.get_gfw_integrated_alerts_optimized (gfwclient.py
lines 651..726): empty input returns the empty dict before anything else;
otherwise the date ranges are optimized (one metadata retrieval when
enable_smart_dates is set) and each optimized window runs the batch call,
its per-geostore results merged in window order.  The per-geostore fetch
takes the window as first argument. -/
def get_gfw_integrated_alerts_optimized_counted {β : Type}
    (getMetadata : Nat → Except String DatasetResponseItemM × Nat)
    (fetch : Int × Int → String → Nat → Except String (List β) × Nat)
    (geostore_ids : List String) (date_range : Int × Int)
    (enable_smart_dates : Bool) (max_days_per_query : Int) (calls : Nat) :
    List (String × List β) × Nat :=
  if geostore_ids.isEmpty then ([], calls)
  else
    let ranged :=
      if enable_smart_dates then
        let meta := getMetadata calls
        (optimize_date_range_for_dataset meta.1 date_range.1 date_range.2
          max_days_per_query, meta.2)
      else ([date_range], calls)
    ranged.1.foldl
      (fun (acc : List (String × List β) × Nat) dr =>
        let chunk := get_gfw_integrated_alerts_batch_counted (fetch dr)
          geostore_ids acc.2
        (merge_alerts acc.1 chunk.1, chunk.2))
      ([], ranged.2)

/-! ### Token manager (gfwclient.py lines 40..56, 347..379)

DataAPI.auth_generator keeps one cached token and an expire_at marker,
initially datetime(1970, 1, 1) (timestamp 0 here); each resume refreshes
through get_access_token exactly when expire_at <= now, setting
expire_at = now + (expires_in - 5).  A resume of the generator (one
get_auth_header call) is embedded as a step on an explicit state; the
credential-exchange outcome is supplied as a function of how many
exchanges have happened (the claim scenario has no exchange failures). -/

structure DataAPIToken where
  access_token : String
  token_type : String
  expires_in : Int
deriving DecidableEq

structure AuthGenState where
  expire_at : Int
  cached : Option DataAPIToken
  exchange_calls : Nat
deriving DecidableEq

def authGenInit : AuthGenState :=
  { expire_at := 0, cached := none, exchange_calls := 0 }

/-- One resume of DataAPI.auth_generator at wall-clock time present. -/
def auth_generator_step (get_access_token : Nat → DataAPIToken)
    (s : AuthGenState) (present : Int) : AuthGenState × Option DataAPIToken :=
  if s.expire_at ≤ present then
    let token := get_access_token s.exchange_calls
    let ttl_seconds := token.expires_in - 5
    ({ expire_at := present + ttl_seconds
       cached := some token
       exchange_calls := s.exchange_calls + 1 }, some token)
  else
    (s, s.cached)

/-! ### generate_date_pairs (handlers.py lines 208..211)

The loop walks downward from upper_date, yielding
(max(lower_date, upper_date - timedelta(days=interval)), upper_date)
and decrementing upper_date by the interval, while upper_date >
lower_date.  Embedded with fuel bounding the iteration count, which is
finite exactly when the interval is positive. -/

def generate_date_pairs_loop (interval_seconds : Int) :
    Nat → Int → Int → List (Int × Int)
  | 0, _, _ => []
  | fuel + 1, lower_date, upper_date =>
    if lower_date < upper_date then
      (max lower_date (upper_date - interval_seconds), upper_date) ::
        generate_date_pairs_loop interval_seconds fuel lower_date
          (upper_date - interval_seconds)
    else []

def generate_date_pairs (lower_date upper_date interval : Int) :
    List (Int × Int) :=
  generate_date_pairs_loop (secondsPerDay * interval)
    ((upper_date - lower_date).toNat + 1) lower_date upper_date

/-! ### Geometry partitioner (utils.py lines 59..131)

The claims about the partitioner concern axis-aligned rectangular AOIs
(a geometry equal to its own envelope) and empty geometries, so the
shapely geometry domain is embedded restricted to those shapes:
simplify(tolerance=0.0005, preserve_topology=True) and buffer(0) are the
identity on an axis-aligned rectangle (its four corners are not within
tolerance of each other for the positive side lengths considered, and it
is already valid), the envelope of a rectangle is itself, the envelope of
the empty geometry is empty with falsy bounds, the intersection of two
axis-aligned rectangles is their coordinate-wise clip, and that clip is a
non-empty Polygon exactly when it has positive extent on both axes
(otherwise it is empty or degenerates to a lower-dimensional geometry,
which the generator skips). -/

structure Rect where
  xmin : ℚ
  ymin : ℚ
  xmax : ℚ
  ymax : ℚ
deriving DecidableEq

def Rect.width (r : Rect) : ℚ := r.xmax - r.xmin

def Rect.height (r : Rect) : ℚ := r.ymax - r.ymin

/-- shapely polygon area of an axis-aligned rectangle. -/
def Rect.area (r : Rect) : ℚ := r.width * r.height

def rectsAreaSum (l : List Rect) : ℚ := (l.map Rect.area).sum

/-- Modelled from the spec: the fixed degrees-to-hectares conversion
constant used by generate_geometry_fragments (the name
DEGREES_TO_HECTARES_FACTOR is referenced by utils.py line 87 but its
defining module is not part of the sources here).  The sibling function
optimize_geometry_partitioning in the same file performs the identical
conversion with the explicit constant 111 * 111. -/
def DEGREES_TO_HECTARES_FACTOR : ℚ := 111 * 111

/-- calculate_adaptive_interval (utils.py lines 113..131). -/
def calculate_adaptive_interval (area_ha base_interval : ℚ) : ℚ :=
  if area_ha < 1000 then base_interval * 2
  else if area_ha < 10000 then base_interval * (3 / 2)
  else if area_ha < 100000 then base_interval
  else base_interval * (1 / 2)

/-- Iteration count of the grid loops: the while loop from lo stepping by
interval while below hi runs ceil((hi - lo) / interval) times when the
interval is positive.  Used as the (exact) fuel of the loop embeddings. -/
def loopCount (lo hi interval : ℚ) : Nat := (⌈(hi - lo) / interval⌉).toNat

/-- Inner (y) loop of generate_rectangle_cells (utils.py lines 62..66):
cells of one grid column, clipped to the envelope edges. -/
def cells_inner (interval xmin xmax ymax : ℚ) : Nat → ℚ → List Rect
  | 0, _ => []
  | fuel + 1, ycur =>
    if ycur < ymax then
      { xmin := xmin
        ymin := ycur
        xmax := min (xmin + interval) xmax
        ymax := min (ycur + interval) ymax } ::
        cells_inner interval xmin xmax ymax fuel (ycur + interval)
    else []

/-- Outer (x) loop of generate_rectangle_cells (utils.py lines 61..66). -/
def cells_outer (interval ymin xmax ymax : ℚ) (fuelY : Nat) :
    Nat → ℚ → List Rect
  | 0, _ => []
  | fuel + 1, xcur =>
    if xcur < xmax then
      cells_inner interval xcur xmax ymax fuelY ymin ++
        cells_outer interval ymin xmax ymax fuelY fuel (xcur + interval)
    else []

/-- generate_rectangle_cells (utils.py lines 59..66). -/
def generate_rectangle_cells (xmin ymin xmax ymax interval : ℚ) : List Rect :=
  cells_outer interval ymin xmax ymax (loopCount ymin ymax interval)
    (loopCount xmin xmax interval) xmin

/-- generate_geometry_fragments (utils.py lines 69..110) on a rectangular
AOI: simplify, buffer(0) and envelope are the identity; the envelope
bounds are valid; the adaptive interval is computed from the area; each
grid cell is intersected with the AOI and the non-empty polygonal
intersections are yielded. -/
def generate_geometry_fragments_rect (g : Rect) (interval : ℚ) : List Rect :=
  let area_ha := g.area * DEGREES_TO_HECTARES_FACTOR
  let adaptive_interval := calculate_adaptive_interval area_ha interval
  (generate_rectangle_cells g.xmin g.ymin g.xmax g.ymax
      adaptive_interval).filterMap
    (fun cell =>
      let inter : Rect :=
        { xmin := max cell.xmin g.xmin
          ymin := max cell.ymin g.ymin
          xmax := min cell.xmax g.xmax
          ymax := min cell.ymax g.ymax }
      if inter.xmin < inter.xmax ∧ inter.ymin < inter.ymax then some inter
      else none)

/-- The geometry domain the partitioner claims range over: the empty
geometry (whose envelope has falsy bounds) or an axis-aligned rectangle. -/
inductive GeomM where
  | empty : GeomM
  | rect : Rect → GeomM
deriving DecidableEq

/-- generate_geometry_fragments (utils.py lines 69..110) with its error
behaviour: consuming the generator for a geometry whose envelope has no
valid bounds raises ValueError (the PartitionError of the spec taxonomy);
for a geometry with valid bounds the fragment list is produced. -/
def generate_geometry_fragments (g : GeomM) (interval : ℚ) :
    Except String (List Rect) :=
  match g with
  | GeomM.empty =>
    Except.error "The geometry collection does not have valid envelope bounds."
  | GeomM.rect r => Except.ok (generate_geometry_fragments_rect r interval)

/-! ## Helper lemmas -/

theorem idxOf_eq_none_of_not_mem (l : List String) (x : String)
    (h : x ∉ l) : idxOf l x = none := by
  induction l with
  | nil => rfl
  | cons a rest ih =>
    have hax : a ≠ x := fun hax => h (hax ▸ List.mem_cons_self a rest)
    have hxr : x ∉ rest := fun hxr => h (List.mem_cons_of_mem a hxr)
    simp [idxOf, hax, ih hxr]

/-! ## Claim C1: confidence filter construction -/

/-- Claim C1: for every lowest-confidence threshold in the fixed ordered
confidence-level list of a dataset, the confidence filter string built by
the alert-fetch operation selects exactly the levels at or after the
threshold index in that list (spelled out below for each of the five
members of the two lists), and for a threshold not in the list the filter
is the empty string, so all levels pass. -/
theorem claim_C1_confidence_filter :
    (∀ lowest, lowest ∉ IntegratedAlertsConfidenceEnumOrder →
      integrated_extra_where lowest = "") ∧
    (∀ lowest, lowest ∉ NasaViirsFireAlertConfidenceEnumOrder →
      viirs_extra_where lowest = "") ∧
    integrated_extra_where "high" =
      "(gfw_integrated_alerts__confidence = \x27high\x27 OR gfw_integrated_alerts__confidence = \x27highest\x27)" ∧
    integrated_extra_where "highest" =
      "(gfw_integrated_alerts__confidence = \x27highest\x27)" ∧
    viirs_extra_where "low" =
      "(confidence__cat = \x27l\x27 OR confidence__cat = \x27n\x27 OR confidence__cat = \x27h\x27)" ∧
    viirs_extra_where "nominal" =
      "(confidence__cat = \x27n\x27 OR confidence__cat = \x27h\x27)" ∧
    viirs_extra_where "high" = "(confidence__cat = \x27h\x27)" := by
  refine ⟨?_, ?_, by decide, by decide, by decide, by decide, by decide⟩
  · intro lowest h
    rw [integrated_extra_where, idxOf_eq_none_of_not_mem _ _ h]
  · intro lowest h
    rw [viirs_extra_where, idxOf_eq_none_of_not_mem _ _ h]

/-- Witness for claim C1 at concrete thresholds outside the lists. -/
theorem claim_C1_confidence_filter_witness :
    integrated_extra_where "medium" = "" ∧ viirs_extra_where "nominal2" = "" :=
  ⟨claim_C1_confidence_filter.1 "medium" (by decide),
   claim_C1_confidence_filter.2.1 "nominal2" (by decide)⟩

/-! ## Claim C8: binary confidence score of the normalizer -/

/-- Claim C8: for every raw integrated-alert record accepted by the
normalizer, the derived binary confidence score is 1.0 exactly when the
confidence label is the literal string high or highest, and 0.0 for every
other label. -/
theorem claim_C8_binary_confidence_score (latitude longitude : ℚ)
    (confidence_label : String) (recorded_at : Int) (intensity : ℚ) :
    ((IntegratedAlert.parse latitude longitude confidence_label recorded_at
        intensity).confidence = 1 ↔
      (confidence_label = "high" ∨ confidence_label = "highest")) ∧
    ((IntegratedAlert.parse latitude longitude confidence_label recorded_at
        intensity).confidence = 0 ↔
      ¬(confidence_label = "high" ∨ confidence_label = "highest")) := by
  have hc : (IntegratedAlert.parse latitude longitude confidence_label
      recorded_at intensity).confidence = compute_confidence confidence_label :=
    rfl
  rw [hc, compute_confidence]
  by_cases h : confidence_label = "high" ∨ confidence_label = "highest"
  · rw [if_pos h]
    exact ⟨⟨fun _ => h, fun _ => rfl⟩,
      ⟨fun h10 => absurd h10 (by norm_num), fun hn => absurd h hn⟩⟩
  · rw [if_neg h]
    exact ⟨⟨fun h01 => absurd h01 (by norm_num), fun hh => absurd hh h⟩,
      ⟨fun _ => h, fun _ => rfl⟩⟩

/-! ## Claim C3: give-up on the alert-query path returns empty, not raise -/

/-- Claim C3: when get_alerts exhausts its retry budget (all three tries
fail) it returns an empty result (None) instead of propagating the
exception, and a caller on the alert-fetch path receives an empty list of
alerts, never an exception. -/
theorem claim_C3_giveup_returns_empty {α β : Type} (parseAlert : α → β)
    (attempt : Nat → Except String (List α))
    (hfail : ∀ i, i < 3 → ∃ e, attempt i = Except.error e) :
    get_alerts attempt = none ∧
    get_gfw_integrated_alerts parseAlert attempt = [] := by
  obtain ⟨e0, h0⟩ := hfail 0 (by omega)
  obtain ⟨e1, h1⟩ := hfail 1 (by omega)
  obtain ⟨e2, h2⟩ := hfail 2 (by omega)
  have hga : get_alerts attempt = none := by
    simp [get_alerts, retryAttempts, h0, h1, h2]
  exact ⟨hga, by rw [get_gfw_integrated_alerts, hga]⟩

/-- Witness for claim C3: an attempt that fails on every try. -/
theorem claim_C3_giveup_returns_empty_witness :
    get_alerts (fun _ => (Except.error "boom" : Except String (List ℕ))) =
      none ∧
    get_gfw_integrated_alerts (fun n : ℕ => n)
      (fun _ => (Except.error "boom" : Except String (List ℕ))) = [] :=
  claim_C3_giveup_returns_empty (fun n : ℕ => n)
    (fun _ => Except.error "boom") (fun _ _ => ⟨"boom", rfl⟩)

/-! ## Claim C7: PartitionError exactly on invalid envelope bounds -/

/-- Claim C7: consuming the fragment generator for a geometry whose
envelope has no valid bounds raises the partition error, and for every
geometry with valid bounds it does not raise that error. -/
theorem claim_C7_partition_error :
    (∀ interval : ℚ, generate_geometry_fragments GeomM.empty interval =
      Except.error
        "The geometry collection does not have valid envelope bounds.") ∧
    (∀ (r : Rect) (interval : ℚ), ∃ fragments,
      generate_geometry_fragments (GeomM.rect r) interval =
        Except.ok fragments) :=
  ⟨fun _ => rfl, fun _ _ => ⟨_, rfl⟩⟩

/-! ## Claim C10: empty geostore-id list short-circuits -/

/-- Claim C10: calling the batch query or the optimized query with an
empty geostore-id list returns the empty map and performs no upstream
call at all: the call counter threaded through every upstream interaction
is returned untouched. -/
theorem claim_C10_empty_input_no_calls {β : Type}
    (getMetadata : Nat → Except String DatasetResponseItemM × Nat)
    (fetch : Int × Int → String → Nat → Except String (List β) × Nat)
    (fetchB : String → Nat → Except String (List β) × Nat)
    (date_range : Int × Int) (enable_smart_dates : Bool)
    (max_days_per_query : Int) (calls : Nat) :
    get_gfw_integrated_alerts_batch_counted fetchB [] calls = ([], calls) ∧
    get_gfw_integrated_alerts_optimized_counted getMetadata fetch []
      date_range enable_smart_dates max_days_per_query calls = ([], calls) :=
  ⟨rfl, rfl⟩

/-! ## Claim C5: token manager refresh discipline -/

/-- Claim C5: requesting an auth header twice while the first token is
still within its validity window (expiry minus the 5 second safety margin
not yet passed) performs exactly one credential-exchange call, and the
second request is served the cached token; a further request at or after
the cached expiry marker performs exactly one more exchange call. -/
theorem claim_C5_token_reuse (get_access_token : Nat → DataAPIToken)
    (t1 t2 t3 : Int) (h1 : 0 ≤ t1)
    (h2 : t2 < t1 + ((get_access_token 0).expires_in - 5))
    (h3 : t1 + ((get_access_token 0).expires_in - 5) ≤ t3) :
    (auth_generator_step get_access_token authGenInit t1).1.exchange_calls =
      1 ∧
    (auth_generator_step get_access_token
      (auth_generator_step get_access_token authGenInit t1).1
        t2).1.exchange_calls = 1 ∧
    (auth_generator_step get_access_token
      (auth_generator_step get_access_token authGenInit t1).1 t2).2 =
      (auth_generator_step get_access_token authGenInit t1).2 ∧
    (auth_generator_step get_access_token
      (auth_generator_step get_access_token
        (auth_generator_step get_access_token authGenInit t1).1 t2).1
      t3).1.exchange_calls = 2 := by
  have e1 : auth_generator_step get_access_token authGenInit t1 =
      ({ expire_at := t1 + ((get_access_token 0).expires_in - 5)
         cached := some (get_access_token 0)
         exchange_calls := 1 }, some (get_access_token 0)) := by
    rw [auth_generator_step, if_pos (show authGenInit.expire_at ≤ t1 from h1)]
    rfl
  rw [e1]
  have e2 : auth_generator_step get_access_token
      { expire_at := t1 + ((get_access_token 0).expires_in - 5)
        cached := some (get_access_token 0)
        exchange_calls := 1 } t2 =
      ({ expire_at := t1 + ((get_access_token 0).expires_in - 5)
         cached := some (get_access_token 0)
         exchange_calls := 1 }, some (get_access_token 0)) := by
    rw [auth_generator_step, if_neg (not_le.mpr h2)]
  rw [e2]
  refine ⟨rfl, rfl, rfl, ?_⟩
  rw [auth_generator_step, if_pos h3]

/-- Witness for claim C5: a constant exchange with a one-day token,
requests at times 0 and 100, then at the expiry marker 86395. -/
theorem claim_C5_token_reuse_witness :
    (auth_generator_step (fun _ => ⟨"tok", "Bearer", 86400⟩) authGenInit
      0).1.exchange_calls = 1 ∧
    (auth_generator_step (fun _ => ⟨"tok", "Bearer", 86400⟩)
      (auth_generator_step (fun _ => ⟨"tok", "Bearer", 86400⟩) authGenInit
        0).1 100).1.exchange_calls = 1 ∧
    (auth_generator_step (fun _ => ⟨"tok", "Bearer", 86400⟩)
      (auth_generator_step (fun _ => ⟨"tok", "Bearer", 86400⟩) authGenInit
        0).1 100).2 =
      (auth_generator_step (fun _ => ⟨"tok", "Bearer", 86400⟩) authGenInit
        0).2 ∧
    (auth_generator_step (fun _ => ⟨"tok", "Bearer", 86400⟩)
      (auth_generator_step (fun _ => ⟨"tok", "Bearer", 86400⟩)
        (auth_generator_step (fun _ => ⟨"tok", "Bearer", 86400⟩) authGenInit
          0).1 100).1 86395).1.exchange_calls = 2 :=
  claim_C5_token_reuse (fun _ => ⟨"tok", "Bearer", 86400⟩) 0 100 86395
    (by norm_num) (by norm_num) (by norm_num)

/-! ## Claim C2: batch query tolerates per-geostore failure -/

theorem dictLookup_dictInsert {β : Type} (d : List (String × β))
    (k j : String) (v : β) :
    dictLookup (dictInsert d k v) j =
      if k = j then some v else dictLookup d j := by
  induction d with
  | nil => by_cases h : k = j <;> simp [dictInsert, dictLookup, h]
  | cons p rest ih =>
    obtain ⟨k0, v0⟩ := p
    by_cases h0 : k0 = k
    · subst h0
      by_cases h : k0 = j <;> simp [dictInsert, dictLookup, h]
    · by_cases h : k0 = j
      · subst h
        have hkj : ¬k = k0 := fun hc => h0 hc.symm
        simp [dictInsert, dictLookup, h0, hkj]
      · simp [dictInsert, dictLookup, h0, h, ih]

theorem mem_dictKeys_dictInsert {β : Type} (d : List (String × β))
    (k j : String) (v : β) :
    j ∈ dictKeys (dictInsert d k v) ↔ j = k ∨ j ∈ dictKeys d := by
  induction d with
  | nil => simp [dictInsert, dictKeys]
  | cons p rest ih =>
    obtain ⟨k0, v0⟩ := p
    by_cases h0 : k0 = k
    · subst h0
      have hred : dictInsert ((k0, v0) :: rest) k0 v = (k0, v) :: rest := by
        rw [dictInsert, if_pos rfl]
      rw [hred]
      simp only [dictKeys, List.map_cons, List.mem_cons]
      tauto
    · simp only [dictInsert, if_neg h0]
      simp only [dictKeys, List.map_cons, List.mem_cons] at ih ⊢
      rw [ih]
      tauto

theorem nodup_dictKeys_dictInsert {β : Type} (d : List (String × β))
    (k : String) (v : β) (h : (dictKeys d).Nodup) :
    (dictKeys (dictInsert d k v)).Nodup := by
  induction d with
  | nil => simp [dictInsert, dictKeys]
  | cons p rest ih =>
    obtain ⟨k0, v0⟩ := p
    simp only [dictKeys, List.map_cons, List.nodup_cons] at h
    by_cases h0 : k0 = k
    · subst h0
      simpa [dictInsert, dictKeys, List.nodup_cons] using h
    · simp only [dictInsert, if_neg h0, dictKeys, List.map_cons,
        List.nodup_cons]
      refine ⟨?_, ih h.2⟩
      intro hmem
      rcases (mem_dictKeys_dictInsert rest k k0 v).mp hmem with he | hmem0
      · exact h0 he
      · exact h.1 hmem0

theorem dictLookup_foldl_insert {β : Type} (ps : List (String × β))
    (d : List (String × β)) (j : String) :
    dictLookup (ps.foldl (fun d p => dictInsert d p.1 p.2) d) j =
      match lastVal ps j with
      | some w => some w
      | none => dictLookup d j := by
  induction ps generalizing d with
  | nil => rfl
  | cons p rest ih =>
    rw [List.foldl_cons, ih, lastVal]
    cases hrv : lastVal rest j with
    | some w => rfl
    | none =>
      by_cases h : p.1 = j <;> simp [dictLookup_dictInsert, h]

theorem mem_dictKeys_foldl_insert {β : Type} (ps : List (String × β))
    (d : List (String × β)) (j : String) :
    j ∈ dictKeys (ps.foldl (fun d p => dictInsert d p.1 p.2) d) ↔
      j ∈ dictKeys d ∨ j ∈ ps.map Prod.fst := by
  induction ps generalizing d with
  | nil => simp
  | cons p rest ih =>
    rw [List.foldl_cons, ih]
    rw [mem_dictKeys_dictInsert]
    simp only [List.map_cons, List.mem_cons]
    tauto

theorem nodup_dictKeys_foldl_insert {β : Type} (ps : List (String × β))
    (d : List (String × β)) (h : (dictKeys d).Nodup) :
    (dictKeys (ps.foldl (fun d p => dictInsert d p.1 p.2) d)).Nodup := by
  induction ps generalizing d with
  | nil => exact h
  | cons p rest ih =>
    rw [List.foldl_cons]
    exact ih _ (nodup_dictKeys_dictInsert d p.1 p.2 h)

theorem lastVal_map_keyed {β : Type} (val : String → β) (gids : List String)
    (j : String) :
    lastVal (gids.map (fun g => (g, val g))) j =
      if j ∈ gids then some (val j) else none := by
  induction gids with
  | nil => simp [lastVal]
  | cons g rest ih =>
    simp only [List.map_cons]
    rw [lastVal, ih]
    by_cases hr : j ∈ rest
    · rw [if_pos hr]
      show some (val j) = if j ∈ g :: rest then some (val j) else none
      rw [if_pos (List.mem_cons_of_mem g hr)]
    · rw [if_neg hr]
      by_cases hg : g = j
      · subst hg
        show (if g = g then some (val g) else none) =
          if g ∈ g :: rest then some (val g) else none
        rw [if_pos rfl, if_pos (List.mem_cons_self g rest)]
      · show (if g = j then some (val g) else none) =
          if j ∈ g :: rest then some (val j) else none
        have hng : j ∉ g :: rest := by
          intro hmem
          rcases List.mem_cons.mp hmem with he | hm
          · exact hg he.symm
          · exact hr hm
        rw [if_neg hg, if_neg hng]

/-- Claim C2: for every non-empty list of geostore ids, the batch query
returns a map with exactly one entry per distinct input geostore id (its
keys are exactly the input ids, without duplicates) and never raises; a
geostore whose per-geostore fetch fails is mapped to the empty list,
while the others carry their fetched alerts. -/
theorem claim_C2_batch_partial_results {β : Type}
    (fetch : String → Except String (List β)) (geostore_ids : List String)
    (hne : geostore_ids ≠ []) :
    (dictKeys (get_gfw_integrated_alerts_batch fetch geostore_ids)).Nodup ∧
    (∀ g, g ∈ dictKeys (get_gfw_integrated_alerts_batch fetch geostore_ids) ↔
      g ∈ geostore_ids) ∧
    (∀ g, g ∈ geostore_ids →
      dictLookup (get_gfw_integrated_alerts_batch fetch geostore_ids) g =
        some (match fetch g with
          | Except.ok alerts => alerts
          | Except.error _ => [])) := by
  have hbatch : get_gfw_integrated_alerts_batch fetch geostore_ids =
      dictOfPairs (geostore_ids.map (fetch_single_geostore fetch)) := by
    rw [get_gfw_integrated_alerts_batch,
      if_neg (by simpa [List.isEmpty_iff] using hne)]
  have hmapeq : geostore_ids.map (fetch_single_geostore fetch) =
      geostore_ids.map (fun g =>
        (g, match fetch g with
            | Except.ok alerts => alerts
            | Except.error _ => [])) := by
    refine List.map_congr_left (fun g _ => ?_)
    rw [fetch_single_geostore]
    cases fetch g <;> rfl
  have hkeys : (geostore_ids.map (fetch_single_geostore fetch)).map Prod.fst =
      geostore_ids := by
    rw [hmapeq, List.map_map]
    exact (List.map_congr_left (fun g _ => rfl)).trans (List.map_id _)
  refine ⟨?_, ?_, ?_⟩
  · rw [hbatch, dictOfPairs]
    exact nodup_dictKeys_foldl_insert _ _ (by simp [dictKeys])
  · intro g
    rw [hbatch, dictOfPairs, mem_dictKeys_foldl_insert, hkeys]
    simp [dictKeys]
  · intro g hg
    rw [hbatch, hmapeq, dictOfPairs, dictLookup_foldl_insert,
      lastVal_map_keyed, if_pos hg]

/-- A concrete per-geostore fetch in which exactly geostore g3 exhausts
every retry. -/
def exampleBatchFetch : String → Except String (List ℕ) :=
  fun g => if g = "g3" then Except.error "retries exhausted" else Except.ok [7]

/-- Witness for claim C2: five geostores, g3 failing every retry: the map
has an entry for each, g3 carrying the empty list and g1 its alerts. -/
theorem claim_C2_batch_partial_results_witness :
    dictLookup (get_gfw_integrated_alerts_batch exampleBatchFetch
      ["g1", "g2", "g3", "g4", "g5"]) "g3" = some [] ∧
    dictLookup (get_gfw_integrated_alerts_batch exampleBatchFetch
      ["g1", "g2", "g3", "g4", "g5"]) "g1" = some [7] ∧
    (dictKeys (get_gfw_integrated_alerts_batch exampleBatchFetch
      ["g1", "g2", "g3", "g4", "g5"])).Nodup := by
  have h := claim_C2_batch_partial_results exampleBatchFetch
    ["g1", "g2", "g3", "g4", "g5"] (by decide)
  exact ⟨h.2.2 "g3" (by decide), h.2.2 "g1" (by decide), h.1⟩

/-! ## Claim C4: date-range optimizer window properties -/

theorem date_chunking_loop_stop (c : Int) (fuel : Nat) (start fin : Int)
    (h : ¬start < fin) : date_chunking_loop c fuel start fin = [] := by
  cases fuel with
  | zero => rfl
  | succ fuel => rw [date_chunking_loop, if_neg h]

theorem date_chunking_loop_spec (c : Int) (hc : 1 ≤ c) :
    ∀ (fuel : Nat) (start fin : Int), start < fin →
      (fin - start).toNat ≤ fuel →
      date_chunking_loop c fuel start fin ≠ [] ∧
      (date_chunking_loop c fuel start fin).head?.map Prod.fst = some start ∧
      (date_chunking_loop c fuel start fin).getLast?.map Prod.snd = some fin ∧
      List.Chain' (fun a b => a.2 = b.1) (date_chunking_loop c fuel start fin) ∧
      ∀ w ∈ date_chunking_loop c fuel start fin,
        w.1 < w.2 ∧ w.2 - w.1 ≤ c := by
  intro fuel
  induction fuel with
  | zero =>
    intro start fin hlt hfuel
    exact absurd hfuel (by omega)
  | succ fuel ih =>
    intro start fin hlt hfuel
    have hunf : date_chunking_loop c (fuel + 1) start fin =
        (start, min (start + c) fin) ::
          date_chunking_loop c fuel (min (start + c) fin) fin := by
      rw [date_chunking_loop, if_pos hlt]
    by_cases h2 : fin ≤ start + c
    · have hmin : min (start + c) fin = fin := min_eq_right h2
      have hrest : date_chunking_loop c fuel fin fin = [] :=
        date_chunking_loop_stop c fuel fin fin (lt_irrefl fin)
      rw [hunf, hmin, hrest]
      refine ⟨by simp, by simp, by simp, List.chain'_singleton _, ?_⟩
      intro w hw
      rw [List.mem_singleton] at hw
      subst hw
      exact ⟨hlt, by omega⟩
    · have hlt2 : start + c < fin := not_le.mp h2
      have hmin : min (start + c) fin = start + c := min_eq_left (le_of_lt hlt2)
      obtain ⟨hne, hhead, hlast, hchain, hbounds⟩ :=
        ih (start + c) fin hlt2 (by omega)
      rw [hunf, hmin]
      cases hrest : date_chunking_loop c fuel (start + c) fin with
      | nil => exact absurd hrest hne
      | cons b tl =>
        rw [hrest] at hhead hlast hchain hbounds
        have hb1 : b.1 = start + c := by
          simp only [List.head?_cons, Option.map_some] at hhead
          exact Option.some.inj hhead
        refine ⟨by simp, by simp, ?_, ?_, ?_⟩
        · rw [List.getLast?_cons_cons]
          exact hlast
        · exact List.chain'_cons.mpr ⟨hb1.symm, hchain⟩
        · intro w hw
          rcases List.mem_cons.mp hw with hw | hw
          · subst hw
            exact ⟨by omega, by omega⟩
          · exact hbounds w hw

theorem calculate_chunk_size_bounds (update_frequency : String)
    (max_days : Int) (h : 1 ≤ max_days) :
    1 ≤ calculate_chunk_size update_frequency max_days ∧
      calculate_chunk_size update_frequency max_days ≤ max_days := by
  rw [calculate_chunk_size]
  split
  · omega
  · split
    · omega
    · split <;> omega

theorem date_chunking_spec (chunk_days max_days : Int) (hc : 1 ≤ chunk_days)
    (hcm : chunk_days ≤ max_days) (start fin : Int) (hlt : start < fin) :
    date_chunking chunk_days start fin ≠ [] ∧
    (date_chunking chunk_days start fin).head?.map Prod.fst = some start ∧
    (date_chunking chunk_days start fin).getLast?.map Prod.snd = some fin ∧
    List.Chain' (fun a b => a.2 = b.1) (date_chunking chunk_days start fin) ∧
    ∀ w ∈ date_chunking chunk_days start fin,
      w.1 < w.2 ∧ w.2 - w.1 ≤ secondsPerDay * max_days := by
  have hcs : 1 ≤ secondsPerDay * chunk_days := by
    rw [secondsPerDay]
    omega
  obtain ⟨hne, hhead, hlast, hchain, hbounds⟩ :=
    date_chunking_loop_spec (secondsPerDay * chunk_days) hcs
      ((fin - start).toNat + 1) start fin hlt (by omega)
  rw [date_chunking]
  refine ⟨hne, hhead, hlast, hchain, ?_⟩
  intro w hw
  obtain ⟨hw1, hw2⟩ := hbounds w hw
  refine ⟨hw1, le_trans hw2 ?_⟩
  rw [secondsPerDay]
  omega

/-- Claim C4: for every requested span with start before end and every
maxDaysPerQuery of at least one day, the date-range optimizer returns
(without raising; on metadata failure through the uniform fallback
chunking) a non-empty ordered window list whose first window starts at
the requested start, whose last window ends at the requested end, whose
consecutive windows are contiguous, and whose windows are each at most
maxDaysPerQuery days wide. -/
theorem claim_C4_date_range_optimizer
    (metadata : Except String DatasetResponseItemM)
    (requested_start requested_end max_days_per_query : Int)
    (hlt : requested_start < requested_end) (hmd : 1 ≤ max_days_per_query) :
    optimize_date_range_for_dataset metadata requested_start requested_end
        max_days_per_query ≠ [] ∧
    (optimize_date_range_for_dataset metadata requested_start requested_end
        max_days_per_query).head?.map Prod.fst = some requested_start ∧
    (optimize_date_range_for_dataset metadata requested_start requested_end
        max_days_per_query).getLast?.map Prod.snd = some requested_end ∧
    List.Chain' (fun a b => a.2 = b.1)
      (optimize_date_range_for_dataset metadata requested_start requested_end
        max_days_per_query) ∧
    ∀ w ∈ optimize_date_range_for_dataset metadata requested_start
        requested_end max_days_per_query,
      w.1 < w.2 ∧ w.2 - w.1 ≤ secondsPerDay * max_days_per_query := by
  cases metadata with
  | ok md =>
    obtain ⟨h1, h2⟩ :=
      calculate_chunk_size_bounds "Daily" max_days_per_query hmd
    exact date_chunking_spec (calculate_chunk_size "Daily" max_days_per_query)
      max_days_per_query h1 h2 requested_start requested_end hlt
  | error e =>
    exact date_chunking_spec max_days_per_query max_days_per_query hmd
      le_rfl requested_start requested_end hlt

/-- Witness for claim C4: a 30-day span with maxDaysPerQuery 7 through
the metadata-failure fallback path. -/
theorem claim_C4_date_range_optimizer_witness :
    optimize_date_range_for_dataset (Except.error "metadata unavailable") 0
        2592000 7 ≠ [] ∧
    (optimize_date_range_for_dataset (Except.error "metadata unavailable") 0
        2592000 7).head?.map Prod.fst = some 0 ∧
    (optimize_date_range_for_dataset (Except.error "metadata unavailable") 0
        2592000 7).getLast?.map Prod.snd = some 2592000 ∧
    List.Chain' (fun a b => a.2 = b.1)
      (optimize_date_range_for_dataset (Except.error "metadata unavailable") 0
        2592000 7) ∧
    ∀ w ∈ optimize_date_range_for_dataset (Except.error "metadata unavailable")
        0 2592000 7, w.1 < w.2 ∧ w.2 - w.1 ≤ secondsPerDay * 7 :=
  claim_C4_date_range_optimizer (Except.error "metadata unavailable") 0
    2592000 7 (by norm_num) (by norm_num)

/-! ## Claim C9: generate_date_pairs window properties -/

theorem generate_date_pairs_loop_stop (c : Int) (fuel : Nat)
    (lower upper : Int) (h : ¬lower < upper) :
    generate_date_pairs_loop c fuel lower upper = [] := by
  cases fuel with
  | zero => rfl
  | succ fuel => rw [generate_date_pairs_loop, if_neg h]

theorem generate_date_pairs_loop_spec (c : Int) (hc : 1 ≤ c) :
    ∀ (fuel : Nat) (lower upper : Int), lower < upper →
      (upper - lower).toNat ≤ fuel →
      generate_date_pairs_loop c fuel lower upper ≠ [] ∧
      (generate_date_pairs_loop c fuel lower upper).head?.map Prod.snd =
        some upper ∧
      (generate_date_pairs_loop c fuel lower upper).getLast?.map Prod.fst =
        some lower ∧
      List.Chain' (fun a b => a.1 = b.2)
        (generate_date_pairs_loop c fuel lower upper) ∧
      List.Pairwise (fun a b => b.2 ≤ a.1)
        (generate_date_pairs_loop c fuel lower upper) ∧
      ∀ w ∈ generate_date_pairs_loop c fuel lower upper,
        lower ≤ w.1 ∧ w.1 < w.2 ∧ w.2 ≤ upper ∧ w.2 - w.1 ≤ c := by
  intro fuel
  induction fuel with
  | zero =>
    intro lower upper hlt hfuel
    exact absurd hfuel (by omega)
  | succ fuel ih =>
    intro lower upper hlt hfuel
    have hunf : generate_date_pairs_loop c (fuel + 1) lower upper =
        (max lower (upper - c), upper) ::
          generate_date_pairs_loop c fuel lower (upper - c) := by
      rw [generate_date_pairs_loop, if_pos hlt]
    by_cases h2 : upper - c ≤ lower
    · have hmax : max lower (upper - c) = lower := max_eq_left h2
      have hrest : generate_date_pairs_loop c fuel lower (upper - c) = [] :=
        generate_date_pairs_loop_stop c fuel lower (upper - c) (not_lt.mpr h2)
      rw [hunf, hmax, hrest]
      refine ⟨by simp, by simp, by simp, List.chain'_singleton _,
        List.pairwise_singleton _ _, ?_⟩
      intro w hw
      rw [List.mem_singleton] at hw
      subst hw
      exact ⟨le_refl lower, hlt, le_refl upper, by omega⟩
    · have hlt2 : lower < upper - c := not_le.mp h2
      have hmax : max lower (upper - c) = upper - c :=
        max_eq_right (le_of_lt hlt2)
      obtain ⟨hne, hhead, hlast, hchain, hpw, hbounds⟩ :=
        ih lower (upper - c) hlt2 (by omega)
      rw [hunf, hmax]
      cases hrest : generate_date_pairs_loop c fuel lower (upper - c) with
      | nil => exact absurd hrest hne
      | cons b tl =>
        rw [hrest] at hhead hlast hchain hpw hbounds
        have hb2 : b.2 = upper - c := by
          simp only [List.head?_cons, Option.map_some] at hhead
          exact Option.some.inj hhead
        refine ⟨by simp, by simp, ?_, ?_, ?_, ?_⟩
        · rw [List.getLast?_cons_cons]
          exact hlast
        · exact List.chain'_cons.mpr ⟨hb2.symm, hchain⟩
        · refine List.pairwise_cons.mpr ⟨?_, hpw⟩
          intro w hw
          have := (hbounds w hw).2.2.1
          omega
        · intro w hw
          rcases List.mem_cons.mp hw with hw | hw
          · subst hw
            exact ⟨by omega, by omega, le_refl upper, by omega⟩
          · obtain ⟨ha, hb, hcw, hd⟩ := hbounds w hw
            exact ⟨ha, hb, by omega, hd⟩

/-- Claim C9: for every lower date strictly before an upper date (and
positive interval, the condition under which the Python loop
terminates), the windows produced by generate_date_pairs are each at
most interval days wide, non-overlapping (pairwise disjoint, emitted in
descending order), contiguous (each window starts where the next emitted
window ends), and together cover exactly the span from the lower to the
upper date: the first emitted window ends at the upper date, the last
starts at the lower date, and every window stays inside the span. -/
theorem claim_C9_date_pairs (lower_date upper_date interval : Int)
    (hlt : lower_date < upper_date) (hpos : 1 ≤ interval) :
    generate_date_pairs lower_date upper_date interval ≠ [] ∧
    (generate_date_pairs lower_date upper_date interval).head?.map Prod.snd =
      some upper_date ∧
    (generate_date_pairs lower_date upper_date interval).getLast?.map
      Prod.fst = some lower_date ∧
    List.Chain' (fun a b => a.1 = b.2)
      (generate_date_pairs lower_date upper_date interval) ∧
    List.Pairwise (fun a b => b.2 ≤ a.1)
      (generate_date_pairs lower_date upper_date interval) ∧
    ∀ w ∈ generate_date_pairs lower_date upper_date interval,
      lower_date ≤ w.1 ∧ w.1 < w.2 ∧ w.2 ≤ upper_date ∧
        w.2 - w.1 ≤ secondsPerDay * interval := by
  have hcs : 1 ≤ secondsPerDay * interval := by
    rw [secondsPerDay]
    omega
  have h := generate_date_pairs_loop_spec (secondsPerDay * interval) hcs
    ((upper_date - lower_date).toNat + 1) lower_date upper_date hlt (by omega)
  rw [generate_date_pairs]
  exact h

/-- Witness for claim C9: a seven-day span with the default two-day
interval of MAX_DAYS_PER_QUERY. -/
theorem claim_C9_date_pairs_witness :
    generate_date_pairs 0 604800 2 ≠ [] ∧
    (generate_date_pairs 0 604800 2).head?.map Prod.snd = some 604800 ∧
    (generate_date_pairs 0 604800 2).getLast?.map Prod.fst = some 0 ∧
    List.Chain' (fun a b => a.1 = b.2) (generate_date_pairs 0 604800 2) ∧
    List.Pairwise (fun a b => b.2 ≤ a.1) (generate_date_pairs 0 604800 2) ∧
    ∀ w ∈ generate_date_pairs 0 604800 2,
      0 ≤ w.1 ∧ w.1 < w.2 ∧ w.2 ≤ 604800 ∧ w.2 - w.1 ≤ secondsPerDay * 2 :=
  claim_C9_date_pairs 0 604800 2 (by norm_num) (by norm_num)

/-! ## Claim C6: geometry partitioner on a square AOI -/

theorem calculate_adaptive_interval_pos (area_ha base_interval : ℚ)
    (h : 0 < base_interval) :
    0 < calculate_adaptive_interval area_ha base_interval := by
  rw [calculate_adaptive_interval]
  split
  · positivity
  · split
    · positivity
    · split
      · exact h
      · positivity

theorem ceil_div_one_le (y ym i : ℚ) (hi : 0 < i) (h : y < ym) :
    1 ≤ ⌈(ym - y) / i⌉ :=
  Int.ceil_pos.mpr (div_pos (by linarith) hi)

theorem ceil_div_nonpos (y ym i : ℚ) (hi : 0 < i) (h : ym ≤ y) :
    ⌈(ym - y) / i⌉ ≤ 0 := by
  have hq : (ym - y) / i ≤ 0 :=
    div_nonpos_iff.mpr (Or.inr ⟨by linarith, le_of_lt hi⟩)
  exact Int.ceil_le.mpr (by exact_mod_cast hq)

theorem ceil_div_step (y ym i : ℚ) (hi : i ≠ 0) :
    ⌈(ym - (y + i)) / i⌉ = ⌈(ym - y) / i⌉ - 1 := by
  have hdiv : (ym - (y + i)) / i = (ym - y) / i - 1 := by
    field_simp
    ring
  rw [hdiv, Int.ceil_sub_one]

theorem cells_inner_stop (interval x xmax ymax : ℚ) (fuel : Nat) (y : ℚ)
    (h : ¬y < ymax) : cells_inner interval x xmax ymax fuel y = [] := by
  cases fuel with
  | zero => rfl
  | succ fuel => rw [cells_inner, if_neg h]

theorem cells_inner_length (interval x xmax ymax : ℚ) (hi : 0 < interval) :
    ∀ (fuel : Nat) (y : ℚ), (⌈(ymax - y) / interval⌉).toNat ≤ fuel →
      (cells_inner interval x xmax ymax fuel y).length =
        (⌈(ymax - y) / interval⌉).toNat := by
  intro fuel
  induction fuel with
  | zero =>
    intro y hf
    rw [cells_inner_stop]
    · simp only [List.length_nil]
      omega
    · intro hlt
      have := ceil_div_one_le y ymax interval hi hlt
      omega
  | succ fuel ih =>
    intro y hf
    by_cases hc : y < ymax
    · have hunf : cells_inner interval x xmax ymax (fuel + 1) y =
          { xmin := x
            ymin := y
            xmax := min (x + interval) xmax
            ymax := min (y + interval) ymax } ::
            cells_inner interval x xmax ymax fuel (y + interval) := by
        rw [cells_inner, if_pos hc]
      have hstep := ceil_div_step y ymax interval (ne_of_gt hi)
      have h1 := ceil_div_one_le y ymax interval hi hc
      have hrec := ih (y + interval) (by rw [hstep]; omega)
      rw [hunf, List.length_cons, hrec, hstep]
      omega
    · rw [cells_inner_stop interval x xmax ymax (fuel + 1) y hc]
      have := ceil_div_nonpos y ymax interval hi (not_lt.mp hc)
      simp only [List.length_nil]
      omega

theorem cells_inner_mem (interval x xmax ymax : ℚ) (hi : 0 < interval) :
    ∀ (fuel : Nat) (y : ℚ) (c : Rect),
      c ∈ cells_inner interval x xmax ymax fuel y →
      c.xmin = x ∧ c.xmax = min (x + interval) xmax ∧ y ≤ c.ymin ∧
        c.ymin < ymax ∧ c.ymax = min (c.ymin + interval) ymax := by
  intro fuel
  induction fuel with
  | zero =>
    intro y c hc
    exact absurd hc (List.not_mem_nil c)
  | succ fuel ih =>
    intro y c hc
    by_cases hy : y < ymax
    · rw [cells_inner, if_pos hy] at hc
      rcases List.mem_cons.mp hc with hc | hc
      · subst hc
        exact ⟨rfl, rfl, le_refl y, hy, rfl⟩
      · obtain ⟨h1, h2, h3, h4, h5⟩ := ih (y + interval) c hc
        exact ⟨h1, h2, by linarith, h4, h5⟩
    · rw [cells_inner_stop interval x xmax ymax (fuel + 1) y hy] at hc
      exact absurd hc (List.not_mem_nil c)

theorem rectsAreaSum_nil : rectsAreaSum [] = 0 := rfl

theorem rectsAreaSum_cons (c : Rect) (l : List Rect) :
    rectsAreaSum (c :: l) = Rect.area c + rectsAreaSum l := by
  rw [rectsAreaSum, rectsAreaSum, List.map_cons, List.sum_cons]

theorem rectsAreaSum_append (a b : List Rect) :
    rectsAreaSum (a ++ b) = rectsAreaSum a + rectsAreaSum b := by
  rw [rectsAreaSum, rectsAreaSum, rectsAreaSum, List.map_append,
    List.sum_append]

theorem cells_inner_sum_area (interval x xmax ymax : ℚ) (hi : 0 < interval) :
    ∀ (fuel : Nat) (y : ℚ), y ≤ ymax →
      (⌈(ymax - y) / interval⌉).toNat ≤ fuel →
      rectsAreaSum (cells_inner interval x xmax ymax fuel y) =
        (min (x + interval) xmax - x) * (ymax - y) := by
  intro fuel
  induction fuel with
  | zero =>
    intro y hy hf
    rcases eq_or_lt_of_le hy with he | hlt
    · subst he
      rw [cells_inner_stop interval x xmax y 0 y (lt_irrefl y),
        rectsAreaSum_nil, sub_self, mul_zero]
    · have := ceil_div_one_le y ymax interval hi hlt
      omega
  | succ fuel ih =>
    intro y hy hf
    by_cases hc : y < ymax
    · have hunf : cells_inner interval x xmax ymax (fuel + 1) y =
          { xmin := x
            ymin := y
            xmax := min (x + interval) xmax
            ymax := min (y + interval) ymax } ::
            cells_inner interval x xmax ymax fuel (y + interval) := by
        rw [cells_inner, if_pos hc]
      rw [hunf, rectsAreaSum_cons]
      by_cases h2 : y + interval ≤ ymax
      · have hstep := ceil_div_step y ymax interval (ne_of_gt hi)
        have h1 := ceil_div_one_le y ymax interval hi hc
        have hrec := ih (y + interval) h2 (by rw [hstep]; omega)
        rw [hrec]
        simp only [Rect.area, Rect.width, Rect.height]
        rw [min_eq_left h2]
        ring
      · have hmin : min (y + interval) ymax = ymax :=
          min_eq_right (le_of_lt (not_le.mp h2))
        have hrest : cells_inner interval x xmax ymax fuel (y + interval) =
            [] :=
          cells_inner_stop interval x xmax ymax fuel (y + interval)
            (not_lt.mpr (le_of_lt (not_le.mp h2)))
        rw [hrest, rectsAreaSum_nil]
        simp only [Rect.area, Rect.width, Rect.height]
        rw [hmin]
        ring
    · have he : ymax = y := le_antisymm (not_lt.mp hc) hy
      rw [cells_inner_stop interval x xmax ymax (fuel + 1) y hc,
        rectsAreaSum_nil, he, sub_self, mul_zero]

theorem cells_outer_stop (interval ymin xmax ymax : ℚ) (fY fuel : Nat)
    (x : ℚ) (h : ¬x < xmax) :
    cells_outer interval ymin xmax ymax fY fuel x = [] := by
  cases fuel with
  | zero => rfl
  | succ fuel => rw [cells_outer, if_neg h]

theorem cells_outer_length (interval ymin xmax ymax : ℚ) (hi : 0 < interval)
    (fY : Nat) (hfY : (⌈(ymax - ymin) / interval⌉).toNat ≤ fY) :
    ∀ (fuel : Nat) (x : ℚ), (⌈(xmax - x) / interval⌉).toNat ≤ fuel →
      (cells_outer interval ymin xmax ymax fY fuel x).length =
        (⌈(xmax - x) / interval⌉).toNat *
          (⌈(ymax - ymin) / interval⌉).toNat := by
  intro fuel
  induction fuel with
  | zero =>
    intro x hf
    have hz : (⌈(xmax - x) / interval⌉).toNat = 0 := by omega
    rw [hz, Nat.zero_mul]
    rfl
  | succ fuel ih =>
    intro x hf
    by_cases hx : x < xmax
    · have hunf : cells_outer interval ymin xmax ymax fY (fuel + 1) x =
          cells_inner interval x xmax ymax fY ymin ++
            cells_outer interval ymin xmax ymax fY fuel (x + interval) := by
        rw [cells_outer, if_pos hx]
      have hstep := ceil_div_step x xmax interval (ne_of_gt hi)
      have h1 := ceil_div_one_le x xmax interval hi hx
      have hrec := ih (x + interval) (by rw [hstep]; omega)
      rw [hunf, List.length_append, hrec,
        cells_inner_length interval x xmax ymax hi fY ymin hfY, hstep]
      obtain ⟨b, hb⟩ : ∃ b, (⌈(xmax - x) / interval⌉).toNat = b + 1 :=
        ⟨(⌈(xmax - x) / interval⌉).toNat - 1, by omega⟩
      rw [hb]
      have hb1 : (⌈(xmax - x) / interval⌉ - 1).toNat = b := by omega
      rw [hb1]
      ring
    · rw [cells_outer_stop interval ymin xmax ymax fY (fuel + 1) x hx]
      have := ceil_div_nonpos x xmax interval hi (not_lt.mp hx)
      have hz : (⌈(xmax - x) / interval⌉).toNat = 0 := by omega
      rw [hz, Nat.zero_mul]
      rfl

theorem cells_outer_mem (interval ymin xmax ymax : ℚ) (hi : 0 < interval)
    (fY : Nat) :
    ∀ (fuel : Nat) (x : ℚ) (c : Rect),
      c ∈ cells_outer interval ymin xmax ymax fY fuel x →
      x ≤ c.xmin ∧ c.xmin < xmax ∧ c.xmax = min (c.xmin + interval) xmax ∧
        ymin ≤ c.ymin ∧ c.ymin < ymax ∧
        c.ymax = min (c.ymin + interval) ymax := by
  intro fuel
  induction fuel with
  | zero =>
    intro x c hc
    exact absurd hc (List.not_mem_nil c)
  | succ fuel ih =>
    intro x c hc
    by_cases hx : x < xmax
    · rw [cells_outer, if_pos hx] at hc
      rcases List.mem_append.mp hc with hci | hco
      · obtain ⟨h1, h2, h3, h4, h5⟩ :=
          cells_inner_mem interval x xmax ymax hi fY ymin c hci
        refine ⟨le_of_eq h1.symm, ?_, ?_, h3, h4, h5⟩
        · rw [h1]
          exact hx
        · rw [h2, h1]
      · obtain ⟨h1, h2, h3, h4, h5, h6⟩ := ih (x + interval) c hco
        exact ⟨by linarith, h2, h3, h4, h5, h6⟩
    · rw [cells_outer_stop interval ymin xmax ymax fY (fuel + 1) x hx] at hc
      exact absurd hc (List.not_mem_nil c)

theorem cells_outer_sum_area (interval ymin xmax ymax : ℚ)
    (hi : 0 < interval) (hy : ymin ≤ ymax) (fY : Nat)
    (hfY : (⌈(ymax - ymin) / interval⌉).toNat ≤ fY) :
    ∀ (fuel : Nat) (x : ℚ), x ≤ xmax →
      (⌈(xmax - x) / interval⌉).toNat ≤ fuel →
      rectsAreaSum (cells_outer interval ymin xmax ymax fY fuel x) =
        (xmax - x) * (ymax - ymin) := by
  intro fuel
  induction fuel with
  | zero =>
    intro x hxle hf
    rcases eq_or_lt_of_le hxle with he | hlt
    · subst he
      rw [cells_outer_stop interval ymin x ymax fY 0 x (lt_irrefl x),
        rectsAreaSum_nil, sub_self, zero_mul]
    · have := ceil_div_one_le x xmax interval hi hlt
      omega
  | succ fuel ih =>
    intro x hxle hf
    by_cases hx : x < xmax
    · have hunf : cells_outer interval ymin xmax ymax fY (fuel + 1) x =
          cells_inner interval x xmax ymax fY ymin ++
            cells_outer interval ymin xmax ymax fY fuel (x + interval) := by
        rw [cells_outer, if_pos hx]
      rw [hunf, rectsAreaSum_append,
        cells_inner_sum_area interval x xmax ymax hi fY ymin hy hfY]
      by_cases h2 : x + interval ≤ xmax
      · have hstep := ceil_div_step x xmax interval (ne_of_gt hi)
        have h1 := ceil_div_one_le x xmax interval hi hx
        have hrec := ih (x + interval) h2 (by rw [hstep]; omega)
        rw [hrec, min_eq_left h2]
        ring
      · have hmin : min (x + interval) xmax = xmax :=
          min_eq_right (le_of_lt (not_le.mp h2))
        have hrest : cells_outer interval ymin xmax ymax fY fuel
            (x + interval) = [] :=
          cells_outer_stop interval ymin xmax ymax fY fuel (x + interval)
            (not_lt.mpr (le_of_lt (not_le.mp h2)))
        rw [hrest, rectsAreaSum_nil, hmin]
        ring
    · have he : xmax = x := le_antisymm (not_lt.mp hx) hxle
      rw [cells_outer_stop interval ymin xmax ymax fY (fuel + 1) x hx,
        rectsAreaSum_nil, he, sub_self, zero_mul]

theorem generate_rectangle_cells_length (xmin ymin xmax ymax interval : ℚ)
    (hi : 0 < interval) :
    (generate_rectangle_cells xmin ymin xmax ymax interval).length =
      (⌈(xmax - xmin) / interval⌉).toNat *
        (⌈(ymax - ymin) / interval⌉).toNat := by
  rw [generate_rectangle_cells]
  exact cells_outer_length interval ymin xmax ymax hi _ le_rfl _ xmin le_rfl

theorem generate_rectangle_cells_area (xmin ymin xmax ymax interval : ℚ)
    (hi : 0 < interval) (hx : xmin ≤ xmax) (hy : ymin ≤ ymax) :
    rectsAreaSum (generate_rectangle_cells xmin ymin xmax ymax interval) =
      (xmax - xmin) * (ymax - ymin) := by
  rw [generate_rectangle_cells]
  exact cells_outer_sum_area interval ymin xmax ymax hi hy _ le_rfl _ xmin hx
    le_rfl

theorem filterMap_eq_self {α : Type} (f : α → Option α) :
    ∀ l : List α, (∀ c ∈ l, f c = some c) → l.filterMap f = l := by
  intro l
  induction l with
  | nil => intro _; rfl
  | cons a rest ih =>
    intro h
    rw [List.filterMap_cons, h a (List.mem_cons_self a rest),
      ih (fun c hc => h c (List.mem_cons_of_mem a hc))]

theorem generate_geometry_fragments_rect_eq (x1 y1 x2 y2 interval : ℚ)
    (hI2 : 0 < calculate_adaptive_interval
      ((x2 - x1) * (y2 - y1) * DEGREES_TO_HECTARES_FACTOR) interval) :
    generate_geometry_fragments_rect ⟨x1, y1, x2, y2⟩ interval =
      generate_rectangle_cells x1 y1 x2 y2
        (calculate_adaptive_interval
          ((x2 - x1) * (y2 - y1) * DEGREES_TO_HECTARES_FACTOR) interval) := by
  set I2 := calculate_adaptive_interval
    ((x2 - x1) * (y2 - y1) * DEGREES_TO_HECTARES_FACTOR) interval with hI2def
  show (generate_rectangle_cells x1 y1 x2 y2 I2).filterMap
      (fun cell =>
        if max cell.xmin x1 < min cell.xmax x2 ∧
            max cell.ymin y1 < min cell.ymax y2 then
          some { xmin := max cell.xmin x1
                 ymin := max cell.ymin y1
                 xmax := min cell.xmax x2
                 ymax := min cell.ymax y2 }
        else none) =
    generate_rectangle_cells x1 y1 x2 y2 I2
  apply filterMap_eq_self
  intro c hc
  rw [generate_rectangle_cells] at hc
  obtain ⟨h1, h2, h3, h4, h5, h6⟩ :=
    cells_outer_mem I2 y1 x2 y2 hI2 _ _ x1 c hc
  have hxx : c.xmin < c.xmax := by
    rw [h3]
    exact lt_min (by linarith) h2
  have hyy : c.ymin < c.ymax := by
    rw [h6]
    exact lt_min (by linarith) h5
  have hcx : max c.xmin x1 = c.xmin := max_eq_left h1
  have hcy : max c.ymin y1 = c.ymin := max_eq_left h4
  have hcx2 : min c.xmax x2 = c.xmax := by
    rw [h3]
    exact min_eq_left (min_le_right _ _)
  have hcy2 : min c.ymax y2 = c.ymax := by
    rw [h6]
    exact min_eq_left (min_le_right _ _)
  rw [hcx, hcy, hcx2, hcy2, if_pos ⟨hxx, hyy⟩]

/-- The amended claim C6, general form: for a square AOI of side S equal
to its own envelope and any positive requested cell interval I, the
partitioner uses the adaptively scaled interval I2 =
calculate_adaptive_interval(S * S * DEGREES_TO_HECTARES_FACTOR, I); no
grid cell has an empty intersection (the fragments are exactly the grid
cells), the fragment count is ceil(S / I2) squared, and the fragment
areas sum exactly to the original area S * S. -/
theorem claim_C6_amended_square_partition (x0 y0 S interval : ℚ)
    (hS : 0 < S) (hI : 0 < interval) :
    generate_geometry_fragments_rect ⟨x0, y0, x0 + S, y0 + S⟩ interval =
      generate_rectangle_cells x0 y0 (x0 + S) (y0 + S)
        (calculate_adaptive_interval
          (S * S * DEGREES_TO_HECTARES_FACTOR) interval) ∧
    (generate_geometry_fragments_rect ⟨x0, y0, x0 + S, y0 + S⟩
        interval).length =
      ((⌈S / calculate_adaptive_interval
          (S * S * DEGREES_TO_HECTARES_FACTOR) interval⌉).toNat) ^ 2 ∧
    rectsAreaSum (generate_geometry_fragments_rect ⟨x0, y0, x0 + S, y0 + S⟩
        interval) = S * S := by
  have hprod : (x0 + S - x0) * (y0 + S - y0) = S * S := by ring
  have hI2 : 0 < calculate_adaptive_interval
      ((x0 + S - x0) * (y0 + S - y0) * DEGREES_TO_HECTARES_FACTOR)
      interval := by
    rw [hprod]
    exact calculate_adaptive_interval_pos _ _ hI
  have hI2S : 0 < calculate_adaptive_interval
      (S * S * DEGREES_TO_HECTARES_FACTOR) interval :=
    calculate_adaptive_interval_pos _ _ hI
  have heq := generate_geometry_fragments_rect_eq x0 y0 (x0 + S) (y0 + S)
    interval hI2
  rw [hprod] at heq
  refine ⟨heq, ?_, ?_⟩
  · rw [heq, generate_rectangle_cells_length x0 y0 (x0 + S) (y0 + S) _ hI2S,
      show x0 + S - x0 = S by ring, show y0 + S - y0 = S by ring]
    ring
  · rw [heq, generate_rectangle_cells_area x0 y0 (x0 + S) (y0 + S) _ hI2S
      (by linarith) (by linarith),
      show x0 + S - x0 = S by ring, show y0 + S - y0 = S by ring]

/-- Witness for the amended claim C6: the unit square at the origin with
requested interval one half. -/
theorem claim_C6_amended_square_partition_witness :
    generate_geometry_fragments_rect ⟨0, 0, 0 + 1, 0 + 1⟩ (1 / 2) =
      generate_rectangle_cells 0 0 (0 + 1) (0 + 1)
        (calculate_adaptive_interval
          (1 * 1 * DEGREES_TO_HECTARES_FACTOR) (1 / 2)) ∧
    (generate_geometry_fragments_rect ⟨0, 0, 0 + 1, 0 + 1⟩ (1 / 2)).length =
      ((⌈(1 : ℚ) / calculate_adaptive_interval
          (1 * 1 * DEGREES_TO_HECTARES_FACTOR) (1 / 2)⌉).toNat) ^ 2 ∧
    rectsAreaSum (generate_geometry_fragments_rect ⟨0, 0, 0 + 1, 0 + 1⟩
        (1 / 2)) = 1 * 1 :=
  claim_C6_amended_square_partition 0 0 1 (1 / 2) (by norm_num) (by norm_num)

/-- Counterexample to claim C6 as stated: for the square of side 1/5 at
the origin and requested cell interval 11/100 (which is below the side),
the claim predicts ceil((1/5) / (11/100)) squared = 4 fragments, but the
partitioner adaptively doubles the interval of this small AOI (its area
is 12321/25 hectares, under 1000) to 11/50 and yields exactly 1
fragment. -/
theorem claim_C6_counterexample :
    (generate_geometry_fragments_rect ⟨0, 0, 1 / 5, 1 / 5⟩
        (11 / 100)).length = 1 ∧
    ((⌈((1 : ℚ) / 5) / (11 / 100)⌉).toNat) ^ 2 = 4 ∧ (1 : ℕ) ≠ 4 := by
  refine ⟨?_, ?_, by norm_num⟩
  · have hcalc : calculate_adaptive_interval
        (((1 : ℚ) / 5 - 0) * ((1 : ℚ) / 5 - 0) * DEGREES_TO_HECTARES_FACTOR)
        (11 / 100) = 11 / 50 := by
      rw [DEGREES_TO_HECTARES_FACTOR, calculate_adaptive_interval,
        if_pos (by norm_num)]
      norm_num
    have hI2 : 0 < calculate_adaptive_interval
        (((1 : ℚ) / 5 - 0) * ((1 : ℚ) / 5 - 0) * DEGREES_TO_HECTARES_FACTOR)
        (11 / 100) := by
      rw [hcalc]
      norm_num
    rw [generate_geometry_fragments_rect_eq 0 0 (1 / 5) (1 / 5) (11 / 100)
      hI2, hcalc,
      generate_rectangle_cells_length 0 0 (1 / 5) (1 / 5) (11 / 50)
        (by norm_num)]
    have hceil : (⌈((1 : ℚ) / 5 - 0) / (11 / 50)⌉ : ℤ) = 1 := by
      rw [show ((1 : ℚ) / 5 - 0) / (11 / 50) = 10 / 11 by norm_num]
      rw [Int.ceil_eq_iff]
      norm_num
    rw [hceil]
    rfl
  · have hceil2 : (⌈((1 : ℚ) / 5) / (11 / 100)⌉ : ℤ) = 2 := by
      rw [show ((1 : ℚ) / 5) / (11 / 100) = 20 / 11 by norm_num]
      rw [Int.ceil_eq_iff]
      norm_num
    rw [hceil2]
    rfl
